import Mathlib

/-!
Verification of `src/05-objects-tasks.js` (core-js-101): the CSS selector
builder (`cssSelectorBuilder`), the `Rectangle` factory, and the JSON
bridge (`getJSON`/`fromJSON`).

The JavaScript source is shallowly embedded: the mutable builder object is
modelled as an explicit record `Frags`; each fluent method becomes a
function `Frags → Option Err × Frags` returning the (optional) thrown
error together with the state of the object the method operated on at the
moment of return or throw.  A small heap model (`List Frags` with
allocation at the end) captures the reference semantics needed for the
shared-template / clone-on-first-use claims.
-/

/-- The own data fields of the `cssSelectorBuilder` object: `isBasic` marks
the shared template; the remaining fields are the accumulated selector
fragments (`nameEl`, `nameID`, `namePE` use `""` as the "absent" sentinel,
exactly as the source compares against `''`). -/
structure Frags where
  isBasic : Bool
  nameEl : String
  nameID : String
  nameCl : List String
  nameAt : List String
  namePC : List String
  namePE : String
deriving DecidableEq, Repr

/-- The shared zero-value template object `cssSelectorBuilder` itself. -/
def templateFrags : Frags :=
  { isBasic := true, nameEl := "", nameID := "", nameCl := [], nameAt := [],
    namePC := [], namePE := "" }

/-- Default used when a heap cell is read out of range; never a template. -/
def noFrags : Frags :=
  { isBasic := false, nameEl := "", nameID := "", nameCl := [], nameAt := [],
    namePC := [], namePE := "" }

/-- `clear()`: copy `this` into a fresh object, then reset every fragment
field and mark it as a non-template (`isBasic = false`). -/
def clearF (s : Frags) : Frags :=
  { s with
    nameEl := ""
    nameID := ""
    nameCl := []
    nameAt := []
    namePC := []
    namePE := ""
    isBasic := false }

/-- The two error kinds thrown by the builder, distinguished in the source
only by their message strings (see `errMessage`). -/
inductive Err
  | duplicateFragment
  | outOfOrder
deriving DecidableEq, Repr

/-- The exact `Error` message strings used by the source. -/
def errMessage : Err → String
  | Err.duplicateFragment =>
      "Element, id and pseudo-element should not occur more then one time inside the selector"
  | Err.outOfOrder =>
      "Selector parts should be arranged in the following order: element, id, class, attribute, pseudo-class, pseudo-element"

/-- `element(value)`: clone the template on first use, then duplicate check
on `nameEl`, then order check against every later category, then assign. -/
def elementF (value : String) (s : Frags) : Option Err × Frags :=
  let a := if s.isBasic = true then clearF s else s
  if a.nameEl ≠ "" then (some Err.duplicateFragment, a)
  else if a.namePE ≠ "" ∨ a.namePC.length ≠ 0 ∨ a.nameAt.length ≠ 0
      ∨ a.nameCl.length ≠ 0 ∨ a.nameID ≠ "" then (some Err.outOfOrder, a)
  else (none, { a with nameEl := value })

/-- `id(value)`: duplicate check on `nameID` first, then order check against
pseudo-element, pseudo-classes, attributes and classes, then assign. -/
def idF (value : String) (s : Frags) : Option Err × Frags :=
  let a := if s.isBasic = true then clearF s else s
  if a.nameID ≠ "" then (some Err.duplicateFragment, a)
  else if a.namePE ≠ "" ∨ a.namePC.length ≠ 0 ∨ a.nameAt.length ≠ 0
      ∨ a.nameCl.length ≠ 0 then (some Err.outOfOrder, a)
  else (none, { a with nameID := value })

/-- `class(value)`: order check against pseudo-element, pseudo-classes and
attributes, then push onto `nameCl`. -/
def classF (value : String) (s : Frags) : Option Err × Frags :=
  let a := if s.isBasic = true then clearF s else s
  if a.namePE ≠ "" ∨ a.namePC.length ≠ 0 ∨ a.nameAt.length ≠ 0 then
    (some Err.outOfOrder, a)
  else (none, { a with nameCl := a.nameCl ++ [value] })

/-- `attr(value)`: NOTE the source pushes onto `nameAt` BEFORE performing
the order check, so on a throw the push has already happened. -/
def attrF (value : String) (s : Frags) : Option Err × Frags :=
  let a := if s.isBasic = true then clearF s else s
  let a := { a with nameAt := a.nameAt ++ [value] }
  if a.namePE ≠ "" ∨ a.namePC.length ≠ 0 then (some Err.outOfOrder, a)
  else (none, a)

/-- `pseudoClass(value)`: order check against pseudo-element, then push. -/
def pseudoClassF (value : String) (s : Frags) : Option Err × Frags :=
  let a := if s.isBasic = true then clearF s else s
  if a.namePE ≠ "" then (some Err.outOfOrder, a)
  else (none, { a with namePC := a.namePC ++ [value] })

/-- `pseudoElement(value)`: duplicate check on `namePE`, then assign. -/
def pseudoElementF (value : String) (s : Frags) : Option Err × Frags :=
  let a := if s.isBasic = true then clearF s else s
  if a.namePE ≠ "" then (some Err.duplicateFragment, a)
  else (none, { a with namePE := value })

/-- `stringify()`: concatenate element, `#id`, `.class`es, `[attr]`s,
`:pseudoClass`es and `::pseudoElement` in that fixed order, then reset
every fragment field of `this` (the clearing side effect of the source). -/
def stringifyF (s : Frags) : String × Frags :=
  let str :=
    (if s.nameEl ≠ "" then s.nameEl else "")
    ++ (if s.nameID ≠ "" then "#" ++ s.nameID else "")
    ++ String.join (s.nameCl.map (fun c => "." ++ c))
    ++ String.join (s.nameAt.map (fun c => "[" ++ c ++ "]"))
    ++ String.join (s.namePC.map (fun c => ":" ++ c))
    ++ (if s.namePE ≠ "" then "::" ++ s.namePE else "")
  (str,
    { s with
      nameEl := ""
      nameID := ""
      nameCl := []
      nameAt := []
      namePC := []
      namePE := "" })

/-- One fluent fragment-adding call, tagged by method. -/
inductive FragOp
  | elO (v : String)
  | idO (v : String)
  | clO (v : String)
  | atO (v : String)
  | pcO (v : String)
  | peO (v : String)
deriving DecidableEq, Repr

/-- Dispatch one fragment-adding call to the corresponding method. -/
def runOp : FragOp → Frags → Option Err × Frags
  | FragOp.elO v, s => elementF v s
  | FragOp.idO v, s => idF v s
  | FragOp.clO v, s => classF v s
  | FragOp.atO v, s => attrF v s
  | FragOp.pcO v, s => pseudoClassF v s
  | FragOp.peO v, s => pseudoElementF v s

/-- Run a chain of fragment-adding calls, aborting at the first throw
(a thrown error is fatal to the chain). -/
def runChain : List FragOp → Frags → Option Err × Frags
  | [], s => (none, s)
  | o :: os, s =>
    match runOp o s with
    | (some e, s2) => (some e, s2)
    | (none, s2) => runChain os s2

/-- The combined-selector layer: a renderable value is either a fragment
set (a builder chain's object) or a `combine(a, sym, b)` object, whose
`stringify` recursively stringifies both children once (mutating them). -/
inductive Sel
  | frag (s : Frags)
  | comb (l : Sel) (sym : String) (r : Sel)
deriving DecidableEq, Repr

/-- Rendering a `Sel`: returns the string together with the post-render
value (fragment sets get cleared; a combined object re-renders through the
captured, now-mutated children). -/
def renderSel : Sel → String × Sel
  | Sel.frag s => ((stringifyF s).1, Sel.frag (stringifyF s).2)
  | Sel.comb l sym r =>
    let pl := renderSel l
    let pr := renderSel r
    (pl.1 ++ " " ++ sym ++ " " ++ pr.1, Sel.comb pl.2 sym pr.2)

/-- The rectangle object returned by `Rectangle(width, height)`.  The
`getArea` closure captures the constructor parameters, not the live
fields, so the captured pair is stored separately from the assignable
`width`/`height` fields.  JS numbers are idealised as integers. -/
structure RectObj where
  width : Int
  height : Int
  capturedWidth : Int
  capturedHeight : Int
deriving DecidableEq, Repr

/-- `Rectangle(width, height)`: fields and closure capture both get the
constructor arguments. -/
def Rectangle (width height : Int) : RectObj :=
  { width := width, height := height,
    capturedWidth := width, capturedHeight := height }

/-- `getArea()`: multiplies the captured constructor parameters. -/
def RectObj.getArea (r : RectObj) : Int :=
  r.capturedWidth * r.capturedHeight

/-- Reassigning `r.width` after construction (`r.width = w`). -/
def setWidth (r : RectObj) (w : Int) : RectObj :=
  { r with width := w }

/-- Reassigning `r.height` after construction (`r.height = h`). -/
def setHeight (r : RectObj) (h : Int) : RectObj :=
  { r with height := h }

/-- A chain state holding an element and one pseudo-class, as produced by
`element("a").pseudoClass("x")`. -/
def stateElPc : Frags :=
  { isBasic := false, nameEl := "a", nameID := "", nameCl := [], nameAt := [],
    namePC := ["x"], namePE := "" }

/-- A chain state holding an element, one class and a pseudo-element. -/
def stateElClPe : Frags :=
  { isBasic := false, nameEl := "a", nameID := "", nameCl := ["c"], nameAt := [],
    namePC := [], namePE := "p" }

/-- C2 (original claim, refuted): `attr` is NOT atomic on error.  On the
fragment set holding element `a` and pseudo-class `x`, the call
`attr("q")` throws `OutOfOrderError`, yet the resulting state differs from
the input: the raw attribute `"q"` has already been appended. -/
theorem claim2_counterexample :
    (attrF "q" stateElPc).1 = some Err.outOfOrder ∧
    ¬ (attrF "q" stateElPc).2 = stateElPc := by
  decide

/-- C2 (amended): on a chain object (`isBasic = false`), `attr(v)` throws
`OutOfOrderError` exactly when a pseudo-class or pseudo-element is already
present, it can throw nothing else, and in EVERY case — failing or not —
the raw string `v` has been appended to the attributes sequence (the
source pushes before the order check, so the state is not rolled back on
error). -/
theorem claim2_attr_appends_even_on_error (v : String) (s : Frags)
    (hb : s.isBasic = false) :
    ((attrF v s).1 = some Err.outOfOrder ↔ (s.namePC ≠ [] ∨ s.namePE ≠ "")) ∧
    ((attrF v s).1 = none ↔ (s.namePC = [] ∧ s.namePE = "")) ∧
    (attrF v s).2 = { s with nameAt := s.nameAt ++ [v] } := by
  obtain ⟨b, el, i, cl, a2, pc, pe⟩ := s
  subst hb
  by_cases hpc : pc = [] <;> by_cases hpe : pe = "" <;>
    simp [attrF, hpc, hpe]

/-- C2 amended-claim witness: instantiation at the counterexample state. -/
theorem claim2_witness :
    ((attrF "q" stateElPc).1 = some Err.outOfOrder
      ↔ (stateElPc.namePC ≠ [] ∨ stateElPc.namePE ≠ "")) ∧
    ((attrF "q" stateElPc).1 = none
      ↔ (stateElPc.namePC = [] ∧ stateElPc.namePE = "")) ∧
    (attrF "q" stateElPc).2 = { stateElPc with nameAt := stateElPc.nameAt ++ ["q"] } :=
  claim2_attr_appends_even_on_error "q" stateElPc rfl

/-- C3: `stringify()` clears every fragment field as a side effect, and a
second `stringify()` on the cleared state returns the empty string. -/
theorem claim3_render_clears_state (s : Frags) :
    (stringifyF s).2.nameEl = "" ∧ (stringifyF s).2.nameID = "" ∧
    (stringifyF s).2.nameCl = [] ∧ (stringifyF s).2.nameAt = [] ∧
    (stringifyF s).2.namePC = [] ∧ (stringifyF s).2.namePE = "" ∧
    (stringifyF (stringifyF s).2).1 = "" := by
  obtain ⟨b, el, i, cl, a2, pc, pe⟩ := s
  simp [stringifyF, String.join]

/-- C4: on a chain object, adding `id` when a class is present (and no id
is set yet) throws `OutOfOrderError`; adding `element` when an element is
already set throws `DuplicateFragmentError`; adding `pseudoElement` when a
pseudo-element is already set throws `DuplicateFragmentError`. -/
theorem claim4_violation_law (v : String) (s : Frags) (hb : s.isBasic = false) :
    (s.nameCl ≠ [] → s.nameID = "" → (idF v s).1 = some Err.outOfOrder) ∧
    (s.nameEl ≠ "" → (elementF v s).1 = some Err.duplicateFragment) ∧
    (s.namePE ≠ "" → (pseudoElementF v s).1 = some Err.duplicateFragment) := by
  obtain ⟨b, el, i, cl, a2, pc, pe⟩ := s
  subst hb
  refine ⟨fun h1 h2 => ?_, fun h1 => ?_, fun h1 => ?_⟩
  · subst h2; simp [idF, h1]
  · simp [elementF, h1]
  · simp [pseudoElementF, h1]

/-- C4 witness: instantiation at a state with an element, a class and a
pseudo-element all present and no id. -/
theorem claim4_witness :
    (stateElClPe.nameCl ≠ [] → stateElClPe.nameID = "" →
      (idF "x" stateElClPe).1 = some Err.outOfOrder) ∧
    (stateElClPe.nameEl ≠ "" →
      (elementF "x" stateElClPe).1 = some Err.duplicateFragment) ∧
    (stateElClPe.namePE ≠ "" →
      (pseudoElementF "x" stateElClPe).1 = some Err.duplicateFragment) :=
  claim4_violation_law "x" stateElClPe rfl

/-- C5: for every two renderable selectors `A`, `B` and every string
`sym` (no validation of the symbol is performed — any string is accepted
and interpolated verbatim), rendering `combine(A, sym, B)` yields
`rA ++ " " ++ sym ++ " " ++ rB` where `rA`, `rB` are the strings one
render of `A` and one render of `B` produce from their accumulated
states. -/
theorem claim5_combine_law (A B : Sel) (sym : String) :
    (renderSel (Sel.comb A sym B)).1 =
      (renderSel A).1 ++ " " ++ sym ++ " " ++ (renderSel B).1 := by
  simp [renderSel]

/-- C9: `Rectangle(w, h)` yields an object with `width = w`, `height = h`
and `getArea() = w * h`. -/
theorem claim9_rectangle (w h : Int) :
    (Rectangle w h).width = w ∧ (Rectangle w h).height = h ∧
    (Rectangle w h).getArea = w * h := by
  simp [Rectangle, RectObj.getArea]

/-- C10: `getArea` is fixed at construction time: reassigning the `width`
or `height` fields of the returned object does not change `getArea()`,
which keeps returning the product of the constructor arguments. -/
theorem claim10_area_fixed_at_construction (w h w2 h2 : Int) :
    (setWidth (Rectangle w h) w2).getArea = w * h ∧
    (setHeight (Rectangle w h) h2).getArea = w * h ∧
    (setHeight (setWidth (Rectangle w h) w2) h2).getArea = w * h ∧
    (setWidth (Rectangle w h) w2).width = w2 ∧
    (setHeight (Rectangle w h) h2).height = h2 := by
  simp [Rectangle, RectObj.getArea, setWidth, setHeight]

/-- Chain `element('div').id('main').class('container').class('draggable')`. -/
def chainDiv : List FragOp :=
  [FragOp.elO "div", FragOp.idO "main", FragOp.clO "container", FragOp.clO "draggable"]

/-- Chain `element('table').id('data')`. -/
def chainTable : List FragOp :=
  [FragOp.elO "table", FragOp.idO "data"]

/-- Chain `element('tr').pseudoClass('nth-of-type(even)')`. -/
def chainTr : List FragOp :=
  [FragOp.elO "tr", FragOp.pcO "nth-of-type(even)"]

/-- Chain `element('td').pseudoClass('nth-of-type(even)')`. -/
def chainTd : List FragOp :=
  [FragOp.elO "td", FragOp.pcO "nth-of-type(even)"]

/-- The nested `combine` value from the source's doc example. -/
def nestedCombineExample : Sel :=
  Sel.comb (Sel.frag (runChain chainDiv templateFrags).2) "+"
    (Sel.comb (Sel.frag (runChain chainTable templateFrags).2) "~"
      (Sel.comb (Sel.frag (runChain chainTr templateFrags).2) " "
        (Sel.frag (runChain chainTd templateFrags).2)))

/-- C7: the four chains all succeed, and rendering the nested combination
produces exactly the literal string, with three consecutive spaces where
the space combinator is joined by the outer space padding. -/
theorem claim7_nested_combine_literal :
    (runChain chainDiv templateFrags).1 = none ∧
    (runChain chainTable templateFrags).1 = none ∧
    (runChain chainTr templateFrags).1 = none ∧
    (runChain chainTd templateFrags).1 = none ∧
    (renderSel nestedCombineExample).1 =
      "div#main.container.draggable + table#data ~ tr:nth-of-type(even)   td:nth-of-type(even)" :=
  ⟨rfl, rfl, rfl, rfl, rfl⟩

/-- Ops contributed by an optional singleton fragment. -/
def optOp (f : String → FragOp) : Option String → List FragOp
  | none => []
  | some v => [f v]

/-- The op list of a sequence applied in grammar order: at most one
element, then at most one id, then classes, attributes, pseudo-classes,
and at most one pseudo-element. -/
def grammarOps (el i : Option String) (cls ats pcs : List String)
    (pe : Option String) : List FragOp :=
  optOp FragOp.elO el ++ optOp FragOp.idO i ++ cls.map FragOp.clO
    ++ ats.map FragOp.atO ++ pcs.map FragOp.pcO ++ optOp FragOp.peO pe

theorem runChain_append (xs ys : List FragOp) (s : Frags) :
    runChain (xs ++ ys) s =
      match runChain xs s with
      | (some e, s2) => (some e, s2)
      | (none, s2) => runChain ys s2 := by
  induction xs generalizing s with
  | nil => simp [runChain]
  | cons o os ih =>
    simp only [List.cons_append, runChain]
    rcases h : runOp o s with ⟨e, s2⟩
    cases e <;> simp [h, ih]

theorem runChain_peOps (pe : Option String) (s : Frags)
    (hb : s.isBasic = false) (hpe : s.namePE = "") :
    runChain (optOp FragOp.peO pe) s = (none, { s with namePE := pe.getD "" }) := by
  obtain ⟨b, el, i, cl, a2, pc, pe2⟩ := s
  simp only at hb hpe
  subst hb hpe
  cases pe with
  | none => simp [optOp, runChain]
  | some v => simp [optOp, runChain, runOp, pseudoElementF]

theorem runChain_pcOps (pcs : List String) (pe : Option String) (s : Frags)
    (hb : s.isBasic = false) (hpe : s.namePE = "") :
    runChain (pcs.map FragOp.pcO ++ optOp FragOp.peO pe) s =
      (none, { s with namePC := s.namePC ++ pcs, namePE := pe.getD "" }) := by
  induction pcs generalizing s with
  | nil =>
    obtain ⟨b, el, i, cl, a2, pc, pe2⟩ := s
    simp only at hb hpe
    subst hb hpe
    simpa using runChain_peOps pe (Frags.mk false el i cl a2 pc "") rfl rfl
  | cons p ps ih =>
    obtain ⟨b, el, i, cl, a2, pc, pe2⟩ := s
    simp only at hb hpe
    subst hb hpe
    have step : runOp (FragOp.pcO p) (Frags.mk false el i cl a2 pc "") =
        (none, Frags.mk false el i cl a2 (pc ++ [p]) "") := by
      simp [runOp, pseudoClassF]
    have ihx := ih (Frags.mk false el i cl a2 (pc ++ [p]) "") rfl rfl
    simp only [List.map_cons, List.cons_append, runChain, step]
    simp [ihx]

theorem runChain_atOps (ats pcs : List String) (pe : Option String) (s : Frags)
    (hb : s.isBasic = false) (hpc : s.namePC = []) (hpe : s.namePE = "") :
    runChain (ats.map FragOp.atO ++ pcs.map FragOp.pcO ++ optOp FragOp.peO pe) s =
      (none, { s with nameAt := s.nameAt ++ ats, namePC := pcs, namePE := pe.getD "" }) := by
  induction ats generalizing s with
  | nil =>
    obtain ⟨b, el, i, cl, a2, pc, pe2⟩ := s
    simp only at hb hpc hpe
    subst hb hpc hpe
    simpa using runChain_pcOps pcs pe (Frags.mk false el i cl a2 [] "") rfl rfl
  | cons v vs ih =>
    obtain ⟨b, el, i, cl, a2, pc, pe2⟩ := s
    simp only at hb hpc hpe
    subst hb hpc hpe
    have step : runOp (FragOp.atO v) (Frags.mk false el i cl a2 [] "") =
        (none, Frags.mk false el i cl (a2 ++ [v]) [] "") := by
      simp [runOp, attrF]
    have ihx := ih (Frags.mk false el i cl (a2 ++ [v]) [] "") rfl rfl rfl
    simp only [List.append_assoc] at ihx
    simp only [List.map_cons, List.cons_append, runChain, step]
    simp [ihx]

theorem runChain_clOps (cls ats pcs : List String) (pe : Option String) (s : Frags)
    (hb : s.isBasic = false) (hat : s.nameAt = []) (hpc : s.namePC = [])
    (hpe : s.namePE = "") :
    runChain (cls.map FragOp.clO ++ ats.map FragOp.atO ++ pcs.map FragOp.pcO
        ++ optOp FragOp.peO pe) s =
      (none, { s with nameCl := s.nameCl ++ cls, nameAt := ats, namePC := pcs, namePE := pe.getD "" }) := by
  induction cls generalizing s with
  | nil =>
    obtain ⟨b, el, i, cl, a2, pc, pe2⟩ := s
    simp only at hb hat hpc hpe
    subst hb hat hpc hpe
    simpa using runChain_atOps ats pcs pe (Frags.mk false el i cl [] [] "") rfl rfl rfl
  | cons v vs ih =>
    obtain ⟨b, el, i, cl, a2, pc, pe2⟩ := s
    simp only at hb hat hpc hpe
    subst hb hat hpc hpe
    have step : runOp (FragOp.clO v) (Frags.mk false el i cl [] [] "") =
        (none, Frags.mk false el i (cl ++ [v]) [] [] "") := by
      simp [runOp, classF]
    have ihx := ih (Frags.mk false el i (cl ++ [v]) [] [] "") rfl rfl rfl rfl
    simp only [List.append_assoc] at ihx
    simp only [List.map_cons, List.cons_append, runChain, step]
    simp [ihx]

theorem runChain_idOps (i : Option String) (cls ats pcs : List String)
    (pe : Option String) (s : Frags) (hb : s.isBasic = false)
    (hid : s.nameID = "") (hcl : s.nameCl = []) (hat : s.nameAt = [])
    (hpc : s.namePC = []) (hpe : s.namePE = "") :
    runChain (optOp FragOp.idO i ++ cls.map FragOp.clO ++ ats.map FragOp.atO
        ++ pcs.map FragOp.pcO ++ optOp FragOp.peO pe) s =
      (none, { s with nameID := i.getD "", nameCl := cls, nameAt := ats, namePC := pcs, namePE := pe.getD "" }) := by
  obtain ⟨b, el, i2, cl, a2, pc, pe2⟩ := s
  simp only at hb hid hcl hat hpc hpe
  subst hb hid hcl hat hpc hpe
  cases i with
  | none =>
    simpa using runChain_clOps cls ats pcs pe (Frags.mk false el "" [] [] [] "") rfl rfl rfl rfl
  | some v =>
    have step : runOp (FragOp.idO v) (Frags.mk false el "" [] [] [] "") =
        (none, Frags.mk false el v [] [] [] "") := by
      simp [runOp, idF]
    have rest := runChain_clOps cls ats pcs pe (Frags.mk false el v [] [] [] "") rfl rfl rfl rfl
    simp only [List.append_assoc] at rest
    show runChain (FragOp.idO v :: (List.map FragOp.clO cls ++ List.map FragOp.atO ats
      ++ List.map FragOp.pcO pcs ++ optOp FragOp.peO pe)) (Frags.mk false el "" [] [] [] "") = _
    simp only [runChain, step]
    simp [rest]

theorem runChain_grammar_state (el i : Option String) (cls ats pcs : List String)
    (pe : Option String) :
    ∃ b, runChain (grammarOps el i cls ats pcs pe) templateFrags =
      (none, Frags.mk b (el.getD "") (i.getD "") cls ats pcs (pe.getD "")) := by
  cases el with
  | some x =>
    refine ⟨false, ?_⟩
    have step : runOp (FragOp.elO x) templateFrags =
        (none, Frags.mk false x "" [] [] [] "") := by
      simp [runOp, elementF, templateFrags, clearF]
    have rest := runChain_idOps i cls ats pcs pe (Frags.mk false x "" [] [] [] "")
      rfl rfl rfl rfl rfl rfl
    simp only [List.append_assoc] at rest
    show runChain (FragOp.elO x :: (optOp FragOp.idO i ++ List.map FragOp.clO cls
      ++ List.map FragOp.atO ats ++ List.map FragOp.pcO pcs ++ optOp FragOp.peO pe))
      templateFrags = _
    simp only [runChain, step]
    simp [rest]
  | none =>
    cases i with
    | some v =>
      refine ⟨false, ?_⟩
      have step : runOp (FragOp.idO v) templateFrags =
          (none, Frags.mk false "" v [] [] [] "") := by
        simp [runOp, idF, templateFrags, clearF]
      have rest := runChain_clOps cls ats pcs pe (Frags.mk false "" v [] [] [] "")
        rfl rfl rfl rfl
      simp only [List.append_assoc] at rest
      show runChain (FragOp.idO v :: (List.map FragOp.clO cls ++ List.map FragOp.atO ats
        ++ List.map FragOp.pcO pcs ++ optOp FragOp.peO pe)) templateFrags = _
      simp only [runChain, step]
      simp [rest]
    | none =>
      cases cls with
      | cons c cs =>
        refine ⟨false, ?_⟩
        have step : runOp (FragOp.clO c) templateFrags =
            (none, Frags.mk false "" "" [c] [] [] "") := by
          simp [runOp, classF, templateFrags, clearF]
        have rest := runChain_clOps cs ats pcs pe (Frags.mk false "" "" [c] [] [] "")
          rfl rfl rfl rfl
        simp only [List.append_assoc] at rest
        show runChain (FragOp.clO c :: (List.map FragOp.clO cs ++ List.map FragOp.atO ats
          ++ List.map FragOp.pcO pcs ++ optOp FragOp.peO pe)) templateFrags = _
        simp only [runChain, step]
        simp [rest]
      | nil =>
        cases ats with
        | cons a2 as2 =>
          refine ⟨false, ?_⟩
          have step : runOp (FragOp.atO a2) templateFrags =
              (none, Frags.mk false "" "" [] [a2] [] "") := by
            simp [runOp, attrF, templateFrags, clearF]
          have rest := runChain_atOps as2 pcs pe (Frags.mk false "" "" [] [a2] [] "")
            rfl rfl rfl
          simp only [List.append_assoc] at rest
          show runChain (FragOp.atO a2 :: (List.map FragOp.atO as2
            ++ List.map FragOp.pcO pcs ++ optOp FragOp.peO pe)) templateFrags = _
          simp only [runChain, step]
          simp [rest]
        | nil =>
          cases pcs with
          | cons p ps =>
            refine ⟨false, ?_⟩
            have step : runOp (FragOp.pcO p) templateFrags =
                (none, Frags.mk false "" "" [] [] [p] "") := by
              simp [runOp, pseudoClassF, templateFrags, clearF]
            have rest := runChain_pcOps ps pe (Frags.mk false "" "" [] [] [p] "")
              rfl rfl
            simp only [List.append_assoc] at rest
            show runChain (FragOp.pcO p :: (List.map FragOp.pcO ps ++ optOp FragOp.peO pe))
              templateFrags = _
            simp only [runChain, step]
            simp [rest]
          | nil =>
            cases pe with
            | some x =>
              refine ⟨false, ?_⟩
              show runChain [FragOp.peO x] templateFrags = _
              simp [runChain, runOp, pseudoElementF, templateFrags, clearF]
            | none => exact ⟨true, rfl⟩

/-- The string component of `stringify()`, written out over the fields. -/
theorem stringifyF_fst (s : Frags) :
    (stringifyF s).1 =
      (if s.nameEl ≠ "" then s.nameEl else "")
      ++ (if s.nameID ≠ "" then "#" ++ s.nameID else "")
      ++ String.join (s.nameCl.map (fun c => "." ++ c))
      ++ String.join (s.nameAt.map (fun c => "[" ++ c ++ "]"))
      ++ String.join (s.namePC.map (fun c => ":" ++ c))
      ++ (if s.namePE ≠ "" then "::" ++ s.namePE else "") := rfl

/-- C1: every sequence of fragment-adding operations applied in grammar
order (at most one element, then at most one id, then classes, then
attributes, then pseudo-classes, then at most one pseudo-element, the
optional singletons carrying non-empty names where present) succeeds with
no error, and `stringify()` then returns the element, `#id`, `.class`es,
`[attr]`s, `:pseudoClass`es and `::pseudoElement` concatenated in that
fixed order and insertion order. -/
theorem claim1_grammar_order (el i : Option String) (cls ats pcs : List String)
    (pe : Option String) (hid : i ≠ some "") (hpe : pe ≠ some "") :
    (runChain (grammarOps el i cls ats pcs pe) templateFrags).1 = none ∧
    (stringifyF (runChain (grammarOps el i cls ats pcs pe) templateFrags).2).1 =
      (match el with | some x => x | none => "")
      ++ (match i with | some x => "#" ++ x | none => "")
      ++ String.join (cls.map (fun c => "." ++ c))
      ++ String.join (ats.map (fun c => "[" ++ c ++ "]"))
      ++ String.join (pcs.map (fun c => ":" ++ c))
      ++ (match pe with | some x => "::" ++ x | none => "") := by
  obtain ⟨b, hstate⟩ := runChain_grammar_state el i cls ats pcs pe
  rw [hstate]
  refine ⟨rfl, ?_⟩
  rw [stringifyF_fst]
  rcases el with _ | x <;> rcases i with _ | iv <;> rcases pe with _ | pv
  · simp
  · have h : pv ≠ "" := fun h2 => hpe (by rw [h2])
    simp [h]
  · have h : iv ≠ "" := fun h2 => hid (by rw [h2])
    simp [h]
  · have h1 : iv ≠ "" := fun h2 => hid (by rw [h2])
    have h2 : pv ≠ "" := fun h3 => hpe (by rw [h3])
    simp [h1, h2]
  · by_cases hx : x = "" <;> simp [hx]
  · have h : pv ≠ "" := fun h2 => hpe (by rw [h2])
    by_cases hx : x = "" <;> simp [hx, h]
  · have h : iv ≠ "" := fun h2 => hid (by rw [h2])
    by_cases hx : x = "" <;> simp [hx, h]
  · have h1 : iv ≠ "" := fun h2 => hid (by rw [h2])
    have h2 : pv ≠ "" := fun h3 => hpe (by rw [h3])
    by_cases hx : x = "" <;> simp [hx, h1, h2]

/-- C1 witness: the grammar-ordered sequence
`element('a').id('m').class('c1').class('c2').attr('href').pseudoClass('focus').pseudoElement('after')`
succeeds and renders `a#m.c1.c2[href]:focus::after`. -/
theorem claim1_witness :
    (runChain (grammarOps (some "a") (some "m") ["c1", "c2"] ["href"] ["focus"]
      (some "after")) templateFrags).1 = none ∧
    (stringifyF (runChain (grammarOps (some "a") (some "m") ["c1", "c2"] ["href"]
      ["focus"] (some "after")) templateFrags).2).1 =
      "a" ++ "#m" ++ String.join (["c1", "c2"].map (fun c => "." ++ c))
      ++ String.join (["href"].map (fun c => "[" ++ c ++ "]"))
      ++ String.join (["focus"].map (fun c => ":" ++ c)) ++ "::after" :=
  claim1_grammar_order (some "a") (some "m") ["c1", "c2"] ["href"] ["focus"]
    (some "after") (by decide) (by decide)

/-- Heap of builder objects; object references are list indices and `clear()`
allocates at the end.  This models the JS reference semantics: the shared
template lives in a cell, a chain's first call allocates a clone, and
subsequent calls mutate the chain's own cell in place. -/
def heapGet (h : List Frags) (r : Nat) : Frags :=
  h.getD r noFrags

/-- One fluent call through the heap: read the cell; if it is the template
(`isBasic`), the method works on a fresh clone appended to the heap and
returns the new reference; otherwise it mutates the cell in place. -/
def runOpH (o : FragOp) (r : Nat) (h : List Frags) : Option Err × Nat × List Frags :=
  if (heapGet h r).isBasic = true then
    ((runOp o (heapGet h r)).1, h.length, h ++ [(runOp o (heapGet h r)).2])
  else
    ((runOp o (heapGet h r)).1, r, h.set r (runOp o (heapGet h r)).2)

/-- A chain of fluent calls through the heap, aborting at the first throw. -/
def runChainH : List FragOp → Nat → List Frags → Option Err × Nat × List Frags
  | [], r, h => (none, r, h)
  | o :: os, r, h =>
    match runOpH o r h with
    | (some e, r2, h2) => (some e, r2, h2)
    | (none, r2, h2) => runChainH os r2 h2

/-- `stringify()` through the heap: returns the string and writes the
cleared object back into its cell. -/
def renderH (r : Nat) (h : List Frags) : String × List Frags :=
  ((stringifyF (heapGet h r)).1, h.set r (stringifyF (heapGet h r)).2)

theorem heapGet_append_lt (h : List Frags) (a : Frags) (i : Nat) (hi : i < h.length) :
    heapGet (h ++ [a]) i = heapGet h i := by
  induction h generalizing i with
  | nil => simp at hi
  | cons x xs ih =>
    cases i with
    | zero => rfl
    | succ n =>
      simp only [List.cons_append, heapGet, List.getD_cons_succ]
      exact ih n (by simpa using hi)

theorem heapGet_append_len (h : List Frags) (a : Frags) :
    heapGet (h ++ [a]) h.length = a := by
  induction h with
  | nil => rfl
  | cons x xs ih =>
    simpa only [List.cons_append, List.length_cons, heapGet, List.getD_cons_succ] using ih

theorem heapGet_set_self (h : List Frags) (r : Nat) (a : Frags) (hr : r < h.length) :
    heapGet (h.set r a) r = a := by
  induction h generalizing r with
  | nil => simp at hr
  | cons x xs ih =>
    cases r with
    | zero => rfl
    | succ n =>
      simp only [List.set_cons_succ, heapGet, List.getD_cons_succ]
      exact ih n (by simpa using hr)

theorem heapGet_set_ne (h : List Frags) (r : Nat) (a : Frags) (i : Nat) (hi : i ≠ r) :
    heapGet (h.set r a) i = heapGet h i := by
  induction h generalizing r i with
  | nil => rfl
  | cons x xs ih =>
    cases r with
    | zero =>
      cases i with
      | zero => exact absurd rfl hi
      | succ n => rfl
    | succ m =>
      cases i with
      | zero => rfl
      | succ n =>
        simp only [List.set_cons_succ, heapGet, List.getD_cons_succ]
        exact ih m n (by omega)

/-- Every fluent call leaves a non-template object behind. -/
theorem runOp_isBasic_false (o : FragOp) (s : Frags) :
    (runOp o s).2.isBasic = false := by
  obtain ⟨b, el, i, cl, a2, pc, pe⟩ := s
  cases b <;> cases o <;>
    simp only [runOp, elementF, idF, classF, attrF, pseudoClassF, pseudoElementF, clearF] <;>
    repeat (first | rfl | (split <;> try rfl) | simp)

/-- A fluent call on a template cell works on a fresh clone. -/
theorem runOp_basic_clear (o : FragOp) (s : Frags) (hb : s.isBasic = true) :
    runOp o s = runOp o (clearF s) := by
  obtain ⟨b, el, i, cl, a2, pc, pe⟩ := s
  simp only at hb
  subst hb
  cases o <;> rfl

/-- The current reference stays in range through a chain. -/
theorem runChainH_ref_lt (ops : List FragOp) (r : Nat) (h : List Frags)
    (hr : r < h.length) :
    (runChainH ops r h).2.1 < (runChainH ops r h).2.2.length := by
  induction ops generalizing r h with
  | nil => simpa [runChainH] using hr
  | cons o os ih =>
    by_cases hb : (heapGet h r).isBasic = true
    · rcases he : (runOp o (heapGet h r)).1 with _ | e
      · have : runChainH (o :: os) r h =
            runChainH os h.length (h ++ [(runOp o (heapGet h r)).2]) := by
          simp [runChainH, runOpH, hb, he]
        rw [this]
        exact ih h.length (h ++ [(runOp o (heapGet h r)).2]) (by simp)
      · have : runChainH (o :: os) r h =
            (some e, h.length, h ++ [(runOp o (heapGet h r)).2]) := by
          simp [runChainH, runOpH, hb, he]
        rw [this]
        simp
    · rcases he : (runOp o (heapGet h r)).1 with _ | e
      · have : runChainH (o :: os) r h =
            runChainH os r (h.set r (runOp o (heapGet h r)).2) := by
          simp [runChainH, runOpH, hb, he]
        rw [this]
        exact ih r (h.set r (runOp o (heapGet h r)).2) (by simpa using hr)
      · have : runChainH (o :: os) r h =
            (some e, r, h.set r (runOp o (heapGet h r)).2) := by
          simp [runChainH, runOpH, hb, he]
        rw [this]
        simpa using hr

/-- A chain on a non-template in-range cell keeps its reference, keeps the
heap length, and touches no other cell. -/
theorem runChainH_nonbasic_frame (ops : List FragOp) (r : Nat) (h : List Frags)
    (hr : r < h.length) (hb : (heapGet h r).isBasic = false) :
    (runChainH ops r h).2.1 = r ∧ (runChainH ops r h).2.2.length = h.length ∧
    ∀ i, i ≠ r → heapGet (runChainH ops r h).2.2 i = heapGet h i := by
  induction ops generalizing h with
  | nil => simp [runChainH]
  | cons o os ih =>
    have hbt : ¬ (heapGet h r).isBasic = true := by simp [hb]
    rcases he : (runOp o (heapGet h r)).1 with _ | e
    · have hstep : runChainH (o :: os) r h =
          runChainH os r (h.set r (runOp o (heapGet h r)).2) := by
        simp [runChainH, runOpH, hbt, he]
      rw [hstep]
      have hr2 : r < (h.set r (runOp o (heapGet h r)).2).length := by simpa using hr
      have hb2 : (heapGet (h.set r (runOp o (heapGet h r)).2) r).isBasic = false := by
        rw [heapGet_set_self _ _ _ hr]
        exact runOp_isBasic_false o _
      obtain ⟨h1, h2, h3⟩ := ih (h.set r (runOp o (heapGet h r)).2) hr2 hb2
      refine ⟨h1, by simpa using h2, fun i hi => ?_⟩
      rw [h3 i hi, heapGet_set_ne _ _ _ _ hi]
    · have hstep : runChainH (o :: os) r h =
          (some e, r, h.set r (runOp o (heapGet h r)).2) := by
        simp [runChainH, runOpH, hbt, he]
      rw [hstep]
      exact ⟨rfl, by simp, fun i hi => heapGet_set_ne _ _ _ _ hi⟩

/-- A chain started on a template cell never modifies any pre-existing
cell (its first call allocates a fresh clone and the rest of the chain
works there). -/
theorem runChainH_from_basic (ops : List FragOp) (r : Nat) (h : List Frags)
    (hb : (heapGet h r).isBasic = true) :
    ∀ i, i < h.length → heapGet (runChainH ops r h).2.2 i = heapGet h i := by
  cases ops with
  | nil => simp [runChainH]
  | cons o os =>
    intro i hi
    rcases he : (runOp o (heapGet h r)).1 with _ | e
    · have hstep : runChainH (o :: os) r h =
          runChainH os h.length (h ++ [(runOp o (heapGet h r)).2]) := by
        simp [runChainH, runOpH, hb, he]
      rw [hstep]
      have hr2 : h.length < (h ++ [(runOp o (heapGet h r)).2]).length := by simp
      have hb2 : (heapGet (h ++ [(runOp o (heapGet h r)).2]) h.length).isBasic = false := by
        rw [heapGet_append_len]
        exact runOp_isBasic_false o _
      obtain ⟨_, _, h3⟩ := runChainH_nonbasic_frame os h.length _ hr2 hb2
      rw [h3 i (by omega), heapGet_append_lt _ _ _ hi]
    · have hstep : runChainH (o :: os) r h =
          (some e, h.length, h ++ [(runOp o (heapGet h r)).2]) := by
        simp [runChainH, runOpH, hb, he]
      rw [hstep]
      exact heapGet_append_lt _ _ _ hi

/-- Chain execution depends only on the content of the current cell: runs
from two cells with equal content return the same error and leave equal
content at their final references. -/
theorem runChainH_content (ops : List FragOp) (r : Nat) (h : List Frags)
    (r2 : Nat) (h2 : List Frags) (hr : r < h.length) (hr2 : r2 < h2.length)
    (heq : heapGet h r = heapGet h2 r2) :
    (runChainH ops r h).1 = (runChainH ops r2 h2).1 ∧
    heapGet (runChainH ops r h).2.2 (runChainH ops r h).2.1 =
      heapGet (runChainH ops r2 h2).2.2 (runChainH ops r2 h2).2.1 := by
  induction ops generalizing r h r2 h2 with
  | nil => exact ⟨rfl, heq⟩
  | cons o os ih =>
    by_cases hb : (heapGet h r).isBasic = true
    · have hb2 : (heapGet h2 r2).isBasic = true := by rw [← heq]; exact hb
      rcases he : (runOp o (heapGet h r)).1 with _ | e
      · have he2 : (runOp o (heapGet h2 r2)).1 = none := by rw [← heq]; exact he
        have hstep : runChainH (o :: os) r h =
            runChainH os h.length (h ++ [(runOp o (heapGet h r)).2]) := by
          simp [runChainH, runOpH, hb, he]
        have hstep2 : runChainH (o :: os) r2 h2 =
            runChainH os h2.length (h2 ++ [(runOp o (heapGet h2 r2)).2]) := by
          simp [runChainH, runOpH, hb2, he2]
        rw [hstep, hstep2]
        exact ih h.length _ h2.length _ (by simp) (by simp)
          (by rw [heapGet_append_len, heapGet_append_len, heq])
      · have he2 : (runOp o (heapGet h2 r2)).1 = some e := by rw [← heq]; exact he
        have hstep : runChainH (o :: os) r h =
            (some e, h.length, h ++ [(runOp o (heapGet h r)).2]) := by
          simp [runChainH, runOpH, hb, he]
        have hstep2 : runChainH (o :: os) r2 h2 =
            (some e, h2.length, h2 ++ [(runOp o (heapGet h2 r2)).2]) := by
          simp [runChainH, runOpH, hb2, he2]
        rw [hstep, hstep2]
        exact ⟨rfl, by rw [heapGet_append_len, heapGet_append_len, heq]⟩
    · have hb2 : ¬ (heapGet h2 r2).isBasic = true := by rw [← heq]; exact hb
      rcases he : (runOp o (heapGet h r)).1 with _ | e
      · have he2 : (runOp o (heapGet h2 r2)).1 = none := by rw [← heq]; exact he
        have hstep : runChainH (o :: os) r h =
            runChainH os r (h.set r (runOp o (heapGet h r)).2) := by
          simp [runChainH, runOpH, hb, he]
        have hstep2 : runChainH (o :: os) r2 h2 =
            runChainH os r2 (h2.set r2 (runOp o (heapGet h2 r2)).2) := by
          simp [runChainH, runOpH, hb2, he2]
        rw [hstep, hstep2]
        exact ih r _ r2 _ (by simpa using hr) (by simpa using hr2)
          (by rw [heapGet_set_self _ _ _ hr, heapGet_set_self _ _ _ hr2, heq])
      · have he2 : (runOp o (heapGet h2 r2)).1 = some e := by rw [← heq]; exact he
        have hstep : runChainH (o :: os) r h =
            (some e, r, h.set r (runOp o (heapGet h r)).2) := by
          simp [runChainH, runOpH, hb, he]
        have hstep2 : runChainH (o :: os) r2 h2 =
            (some e, r2, h2.set r2 (runOp o (heapGet h2 r2)).2) := by
          simp [runChainH, runOpH, hb2, he2]
        rw [hstep, hstep2]
        exact ⟨rfl, by rw [heapGet_set_self _ _ _ hr, heapGet_set_self _ _ _ hr2, heq]⟩

theorem length_pos_of_template (h : List Frags) (h0 : heapGet h 0 = templateFrags) :
    0 < h.length := by
  cases h with
  | nil => exact absurd h0 (by decide)
  | cons x xs => simp

theorem renderH_fst (r : Nat) (h : List Frags) :
    (renderH r h).1 = (stringifyF (heapGet h r)).1 := rfl

/-- C6: independent builder chains started from the shared zero-value
template do not observe each other's mutations.  Conjuncts: (1) a fluent
call on a template cell operates on a cleared clone allocated in a fresh
cell, leaving every existing cell (the template included) untouched;
(2) every fluent call preserves the template's (empty) fragment state in
cell 0; (3) so does `stringify()` on any cell; (4) for two successful
chains run one after the other from the shared template, the second
chain's operations do not change what the first chain's object renders,
and the second chain renders exactly what it would render run alone. -/
theorem claim6_chain_isolation :
    (∀ (o : FragOp) (r : Nat) (h : List Frags), (heapGet h r).isBasic = true →
      runOpH o r h = ((runOp o (clearF (heapGet h r))).1, h.length,
        h ++ [(runOp o (clearF (heapGet h r))).2])) ∧
    (∀ (o : FragOp) (r : Nat) (h : List Frags), heapGet h 0 = templateFrags →
      heapGet (runOpH o r h).2.2 0 = templateFrags) ∧
    (∀ (r : Nat) (h : List Frags), heapGet h 0 = templateFrags →
      heapGet (renderH r h).2 0 = templateFrags) ∧
    (∀ (c1 c2 : List FragOp) (r1 : Nat) (h1 : List Frags) (r2 : Nat) (h2 : List Frags),
      runChainH c1 0 [templateFrags] = (none, r1, h1) →
      runChainH c2 0 h1 = (none, r2, h2) →
      ((renderH r1 h2).1 = (renderH r1 h1).1 ∧
        ∀ (r3 : Nat) (h3 : List Frags),
          runChainH c2 0 [templateFrags] = (none, r3, h3) →
          (renderH r2 h2).1 = (renderH r3 h3).1)) := by
  refine ⟨?_, ?_, ?_, ?_⟩
  · intro o r h hb
    rw [runOpH, if_pos hb, ← runOp_basic_clear o _ hb]
  · intro o r h h0
    have hlen : 0 < h.length := length_pos_of_template h h0
    by_cases hb : (heapGet h r).isBasic = true
    · rw [runOpH, if_pos hb]
      rw [show ((runOp o (heapGet h r)).1, h.length,
        h ++ [(runOp o (heapGet h r)).2]).2.2 = h ++ [(runOp o (heapGet h r)).2] from rfl]
      rw [heapGet_append_lt _ _ _ hlen]
      exact h0
    · rw [runOpH, if_neg hb]
      rcases eq_or_ne r 0 with rfl | hne
      · exact absurd (by rw [h0]; rfl) hb
      · rw [show ((runOp o (heapGet h r)).1, r,
          h.set r (runOp o (heapGet h r)).2).2.2 = h.set r (runOp o (heapGet h r)).2 from rfl]
        rw [heapGet_set_ne _ _ _ _ (Ne.symm hne)]
        exact h0
  · intro r h h0
    have hlen : 0 < h.length := length_pos_of_template h h0
    rcases eq_or_ne r 0 with rfl | hne
    · show heapGet (h.set 0 (stringifyF (heapGet h 0)).2) 0 = templateFrags
      rw [h0]
      rw [show (stringifyF templateFrags).2 = templateFrags from rfl]
      exact heapGet_set_self _ _ _ hlen
    · show heapGet (h.set r (stringifyF (heapGet h r)).2) 0 = templateFrags
      rw [heapGet_set_ne _ _ _ _ (Ne.symm hne)]
      exact h0
  · intro c1 c2 r1 h1 r2 h2 hc1 hc2
    have hb0 : (heapGet [templateFrags] 0).isBasic = true := rfl
    have hr1lt : r1 < h1.length := by
      have hx := runChainH_ref_lt c1 0 [templateFrags] (by simp)
      rw [hc1] at hx
      exact hx
    have h10 : heapGet h1 0 = templateFrags := by
      have hx := runChainH_from_basic c1 0 [templateFrags] hb0 0 (by simp)
      rw [hc1] at hx
      exact hx
    have hb1 : (heapGet h1 0).isBasic = true := by rw [h10]; rfl
    constructor
    · have hfr := runChainH_from_basic c2 0 h1 hb1 r1 hr1lt
      rw [hc2] at hfr
      rw [renderH_fst, renderH_fst, hfr]
    · intro r3 h3 hc3
      have hcont := runChainH_content c2 0 h1 0 [templateFrags]
        (length_pos_of_template h1 h10) (by simp) (by rw [h10]; rfl)
      rw [hc2, hc3] at hcont
      rw [renderH_fst, renderH_fst, hcont.2]

/-- The chain object built by `element('div')` from the template. -/
def divFrags : Frags := Frags.mk false "div" "" [] [] [] ""

/-- The chain object built by `element('p').class('x')` from the template. -/
def pxFrags : Frags := Frags.mk false "p" "" ["x"] [] [] ""

/-- C6 witness: chain `element('div')` then chain `element('p').class('x')`
run from the shared template; the second chain neither changes what the
first renders nor renders differently from a run of its own. -/
theorem claim6_witness :
    (renderH 1 [templateFrags, divFrags, pxFrags]).1 =
      (renderH 1 [templateFrags, divFrags]).1 ∧
    (renderH 2 [templateFrags, divFrags, pxFrags]).1 =
      (renderH 1 [templateFrags, pxFrags]).1 :=
  have hp := claim6_chain_isolation.2.2.2 [FragOp.elO "div"]
    [FragOp.elO "p", FragOp.clO "x"] 1 [templateFrags, divFrags] 2
    [templateFrags, divFrags, pxFrags] (by decide) (by decide)
  ⟨hp.1, hp.2 1 [templateFrags, pxFrags] (by decide)⟩

/-- Opening brace character (written numerically). -/
def lbrace : Char := Char.ofNat 123

/-- Closing brace character (written numerically). -/
def rbrace : Char := Char.ofNat 125

/-- A primitive JSON-serialisable field value: the modelled fragment of JS
values (strings, integer numbers, booleans, null). -/
inductive Prim
  | pstr (s : String)
  | pint (n : Int)
  | pbool (b : Bool)
  | pnull
deriving DecidableEq, Repr

/-- A JS object for the JSON bridge: a prototype (the capability set the
object delegates to) and its own enumerable data fields in insertion
order. -/
structure JsObject (π : Type) where
  proto : π
  fields : List (String × Prim)
deriving DecidableEq, Repr

/-- JSON escape of one character (the modelled fragment escapes the quote
and the backslash; control characters are outside the modelled fragment). -/
def escChar (c : Char) : List Char :=
  if c = '"' then ['\\', '"']
  else if c = '\\' then ['\\', '\\'] else [c]

/-- JSON escape of a character list. -/
def escList : List Char → List Char
  | [] => []
  | c :: cs => escChar c ++ escList cs

/-- JSON string literal for `s`. -/
def encStrL (s : String) : List Char :=
  '"' :: (escList s.data ++ ['"'])

/-- The character for a decimal digit. -/
def digitChar (n : Nat) : Char := Char.ofNat (48 + n)

/-- Decimal digit characters of a natural number. -/
def natDigits (n : Nat) : List Char :=
  if _h : n < 10 then [digitChar n]
  else natDigits (n / 10) ++ [digitChar (n % 10)]
termination_by n
decreasing_by
  exact Nat.div_lt_self (by omega) (by norm_num)

/-- Decimal representation of an integer. -/
def encIntL (n : Int) : List Char :=
  if n < 0 then '-' :: natDigits n.natAbs else natDigits n.natAbs

/-- JSON text of a primitive value. -/
def encPrimL : Prim → List Char
  | Prim.pstr s => encStrL s
  | Prim.pint n => encIntL n
  | Prim.pbool true => ['t', 'r', 'u', 'e']
  | Prim.pbool false => ['f', 'a', 'l', 's', 'e']
  | Prim.pnull => ['n', 'u', 'l', 'l']

/-- JSON text of the comma-separated `"key":value` members. -/
def encFieldsL : List (String × Prim) → List Char
  | [] => []
  | [(k, v)] => encStrL k ++ (':' :: encPrimL v)
  | (k, v) :: f :: fs => encStrL k ++ (':' :: (encPrimL v ++ (',' :: encFieldsL (f :: fs))))

/-- JSON text of an object. -/
def encObjL (fs : List (String × Prim)) : List Char :=
  lbrace :: (encFieldsL fs ++ [rbrace])

/-- Modelled from the spec: `JSON.stringify` (the platform serializer the
source's `getJSON` delegates to, absent from `src/`): standard structural
JSON serialization of the object's own enumerable fields, key order per
the mapping's iteration order. -/
def getJSON {π : Type} (v : JsObject π) : String :=
  String.mk (encObjL v.fields)

/-- Is `c` a decimal digit? -/
def isDigitC (c : Char) : Bool :=
  decide (48 ≤ c.toNat) && decide (c.toNat ≤ 57)

/-- Parse the body of a JSON string literal (after the opening quote) up to
and through the closing quote; raw control characters are rejected as in
standard JSON. -/
def parseStrChars : List Char → Option (List Char × List Char)
  | [] => none
  | c :: rest =>
    if c = '"' then some ([], rest)
    else if c = '\\' then
      match rest with
      | [] => none
      | e :: rest2 =>
        if e = '"' ∨ e = '\\' then
          match parseStrChars rest2 with
          | none => none
          | some (s, r) => some (e :: s, r)
        else none
    else if 32 ≤ c.toNat then
      match parseStrChars rest with
      | none => none
      | some (s, r) => some (c :: s, r)
    else none

/-- Parse a run of decimal digits into an accumulator. -/
def parseNatAcc (acc : Nat) : List Char → Nat × List Char
  | [] => (acc, [])
  | c :: rest =>
    if isDigitC c then parseNatAcc (acc * 10 + (c.toNat - 48)) rest
    else (acc, c :: rest)

/-- Drop an expected literal character sequence. -/
def dropLit : List Char → List Char → Option (List Char)
  | [], cs => some cs
  | _ :: _, [] => none
  | p :: ps, c :: cs => if c = p then dropLit ps cs else none

/-- Parse one JSON primitive value. -/
def parseValue (cs : List Char) : Option (Prim × List Char) :=
  match cs with
  | [] => none
  | c :: rest =>
    if c = '"' then
      match parseStrChars rest with
      | none => none
      | some (s, r) => some (Prim.pstr (String.mk s), r)
    else if c = 't' then
      match dropLit ['r', 'u', 'e'] rest with
      | none => none
      | some r => some (Prim.pbool true, r)
    else if c = 'f' then
      match dropLit ['a', 'l', 's', 'e'] rest with
      | none => none
      | some r => some (Prim.pbool false, r)
    else if c = 'n' then
      match dropLit ['u', 'l', 'l'] rest with
      | none => none
      | some r => some (Prim.pnull, r)
    else if c = '-' then
      match rest with
      | [] => none
      | d :: _ =>
        if isDigitC d then
          some (Prim.pint (-((parseNatAcc 0 rest).1 : Int)), (parseNatAcc 0 rest).2)
        else none
    else if isDigitC c then
      some (Prim.pint ((parseNatAcc 0 (c :: rest)).1 : Int), (parseNatAcc 0 (c :: rest)).2)
    else none

/-- Parse the members of a JSON object up to and through the closing
brace; the fuel bounds the number of members. -/
def parseFields : Nat → List Char → Option (List (String × Prim) × List Char)
  | 0, _ => none
  | fuel + 1, cs =>
    match cs with
    | [] => none
    | c :: rest =>
      if c = '"' then
        match parseStrChars rest with
        | none => none
        | some (k, r1) =>
          match r1 with
          | ':' :: r2 =>
            match parseValue r2 with
            | none => none
            | some (v, r3) =>
              match r3 with
              | [] => none
              | c2 :: r4 =>
                if c2 = ',' then
                  match parseFields fuel r4 with
                  | none => none
                  | some (fs, r5) => some ((String.mk k, v) :: fs, r5)
                else if c2 = rbrace then some ([(String.mk k, v)], r4)
                else none
          | _ => none
      else none

/-- Parse a JSON object from a character list. -/
def parseObjL (cs : List Char) : Option (List (String × Prim) × List Char) :=
  match cs with
  | [] => none
  | c :: rest =>
    if c = lbrace then
      match rest with
      | [] => none
      | c2 :: r2 => if c2 = rbrace then some ([], r2) else parseFields rest.length rest
    else none

/-- Modelled from the spec: `JSON.parse` (the platform parser the source's
`fromJSON` delegates to, absent from `src/`), restricted to the modelled
fragment: an object whose members are string/integer/boolean/null values;
the whole text must be consumed. -/
def parseJSON (json : String) : Option (List (String × Prim)) :=
  match parseObjL json.data with
  | some (fs, []) => some fs
  | _ => none

/-- `fromJSON(proto, json)`: `Object.create(proto)` then `Object.assign`
with the parsed mapping — a fresh object whose capability set is `proto`
and whose own fields are exactly the parsed members. -/
def fromJSON {π : Type} (proto : π) (json : String) : Option (JsObject π) :=
  match parseJSON json with
  | none => none
  | some fs => some { proto := proto, fields := fs }

/-- Strings in the modelled fragment: no control characters. -/
def strWF (s : String) : Prop := ∀ c ∈ s.data, 32 ≤ c.toNat

/-- Values in the modelled fragment. -/
def primWF : Prim → Prop
  | Prim.pstr s => strWF s
  | _ => True

/-- Field lists in the modelled fragment. -/
def fieldsWF (fs : List (String × Prim)) : Prop :=
  ∀ kv ∈ fs, strWF kv.1 ∧ primWF kv.2

instance : DecidablePred strWF := fun s =>
  inferInstanceAs (Decidable (∀ c ∈ s.data, 32 ≤ c.toNat))

instance : DecidablePred primWF := fun v =>
  match v with
  | Prim.pstr s => inferInstanceAs (Decidable (strWF s))
  | Prim.pint _ => inferInstanceAs (Decidable True)
  | Prim.pbool _ => inferInstanceAs (Decidable True)
  | Prim.pnull => inferInstanceAs (Decidable True)

instance : DecidablePred fieldsWF := fun fs =>
  inferInstanceAs (Decidable (∀ kv ∈ fs, strWF kv.1 ∧ primWF kv.2))

theorem parseStrChars_escList (l : List Char) (rest : List Char)
    (hw : ∀ c ∈ l, 32 ≤ c.toNat) :
    parseStrChars (escList l ++ ('"' :: rest)) = some (l, rest) := by
  induction l with
  | nil =>
    show parseStrChars ('"' :: rest) = _
    rw [parseStrChars.eq_def]
    simp
  | cons c cs ih =>
    have hc : 32 ≤ c.toNat := hw c (by simp)
    have ihx := ih (fun x hx => hw x (by simp [hx]))
    by_cases h1 : c = '"'
    · subst h1
      show parseStrChars ('\\' :: '"' :: (escList cs ++ ('"' :: rest))) = _
      rw [parseStrChars.eq_def]
      simp [ihx]
    · by_cases h2 : c = '\\'
      · subst h2
        show parseStrChars ('\\' :: '\\' :: (escList cs ++ ('"' :: rest))) = _
        rw [parseStrChars.eq_def]
        simp [ihx]
      · simp only [escList, escChar, if_neg h1, if_neg h2, List.append_assoc,
          List.cons_append, List.nil_append]
        rw [parseStrChars.eq_def]
        simp [h1, h2, hc, ihx]

theorem digitChar_toNat (n : Nat) (h : n < 10) : (digitChar n).toNat = 48 + n := by
  interval_cases n <;> decide

theorem digitChar_isDigit (n : Nat) (h : n < 10) : isDigitC (digitChar n) = true := by
  interval_cases n <;> decide

theorem natDigits_all_digits (n : Nat) : ∀ c ∈ natDigits n, isDigitC c = true := by
  induction n using Nat.strong_induction_on with
  | _ n ih =>
    rw [natDigits.eq_def]
    by_cases h : n < 10
    · simp only [dif_pos h]
      intro c hc
      simp only [List.mem_singleton] at hc
      subst hc
      exact digitChar_isDigit n h
    · simp only [dif_neg h]
      intro c hc
      rcases List.mem_append.mp hc with h1 | h1
      · exact ih (n / 10) (Nat.div_lt_self (by omega) (by norm_num)) c h1
      · simp only [List.mem_singleton] at h1
        subst h1
        exact digitChar_isDigit _ (Nat.mod_lt _ (by norm_num))

theorem natDigits_ne_nil (n : Nat) : natDigits n ≠ [] := by
  rw [natDigits.eq_def]
  by_cases h : n < 10 <;> simp [h]

theorem foldl_natDigits (n : Nat) : ∀ acc : Nat,
    (natDigits n).foldl (fun a c => a * 10 + (c.toNat - 48)) acc =
      acc * 10 ^ (natDigits n).length + n := by
  induction n using Nat.strong_induction_on with
  | _ n ih =>
    intro acc
    rw [natDigits.eq_def]
    by_cases h : n < 10
    · simp only [dif_pos h, List.foldl_cons, List.foldl_nil, List.length_cons,
        List.length_nil]
    
      rw [digitChar_toNat n h]
      norm_num
    · simp only [dif_neg h, List.foldl_append, List.foldl_cons, List.foldl_nil,
        List.length_append, List.length_cons, List.length_nil]
      rw [ih (n / 10) (Nat.div_lt_self (by omega) (by norm_num)) acc]
      rw [digitChar_toNat _ (Nat.mod_lt _ (by norm_num))]
      norm_num
      rw [pow_succ, ← mul_assoc]
      generalize acc * 10 ^ (natDigits (n / 10)).length = q
      omega

/-- The continuation does not start with a digit (so a number token ends
exactly where its digits end). -/
def headNotDigit (l : List Char) : Prop :=
  ∀ d rs, l = d :: rs → isDigitC d = false

theorem parseNatAcc_digits (ds : List Char) (hd : ∀ c ∈ ds, isDigitC c = true)
    (rest : List Char) (hr : headNotDigit rest) : ∀ acc : Nat,
    parseNatAcc acc (ds ++ rest) =
      (ds.foldl (fun a c => a * 10 + (c.toNat - 48)) acc, rest) := by
  induction ds with
  | nil =>
    intro acc
    cases rest with
    | nil => rfl
    | cons d rs =>
      show parseNatAcc acc (d :: rs) = (acc, d :: rs)
      simp [parseNatAcc, hr d rs rfl]
  | cons c cs ih =>
    intro acc
    have hc : isDigitC c = true := hd c (by simp)
    show parseNatAcc acc (c :: (cs ++ rest)) = _
    rw [parseNatAcc]
    simp only [hc, if_true, List.foldl_cons]
    exact ih (fun x hx => hd x (by simp [hx])) (acc * 10 + (c.toNat - 48))

theorem parseNatAcc_natDigits (n : Nat) (rest : List Char) (hr : headNotDigit rest) :
    parseNatAcc 0 (natDigits n ++ rest) = (n, rest) := by
  rw [parseNatAcc_digits (natDigits n) (natDigits_all_digits n) rest hr 0,
    foldl_natDigits]
  simp

theorem isDigitC_excl (c : Char) (h : isDigitC c = true) :
    c ≠ '"' ∧ c ≠ 't' ∧ c ≠ 'f' ∧ c ≠ 'n' ∧ c ≠ '-' := by
  refine ⟨?_, ?_, ?_, ?_, ?_⟩ <;> intro hc <;> subst hc <;> exact absurd h (by decide)

theorem parseValue_enc (v : Prim) (rest : List Char) (hw : primWF v)
    (hr : headNotDigit rest) :
    parseValue (encPrimL v ++ rest) = some (v, rest) := by
  cases v with
  | pstr s =>
    have harr : encPrimL (Prim.pstr s) ++ rest =
        '"' :: (escList s.data ++ ('"' :: rest)) := by
      simp [encPrimL, encStrL]
    rw [harr]
    simp only [parseValue]
    rw [parseStrChars_escList s.data rest hw]
    rfl
  | pint n =>
    by_cases hn : n < 0
    · have harr : encPrimL (Prim.pint n) ++ rest =
          '-' :: (natDigits n.natAbs ++ rest) := by
        simp [encPrimL, encIntL, hn]
      rw [harr]
      rcases hnd : natDigits n.natAbs with _ | ⟨d, ds⟩
      · exact absurd hnd (natDigits_ne_nil _)
      · have hd : isDigitC d = true :=
          natDigits_all_digits n.natAbs d (by rw [hnd]; simp)
        have hp := parseNatAcc_natDigits n.natAbs rest hr
        rw [hnd] at hp
        simp only [List.cons_append] at hp
        have hneg : (-(n.natAbs : Int)) = n := by omega
        have habs : -|n| = n := by
          rw [← Int.natCast_natAbs]
          exact hneg
        simp [parseValue, hd, hp, hneg, habs]
    · have harr : encPrimL (Prim.pint n) ++ rest = natDigits n.natAbs ++ rest := by
        simp [encPrimL, encIntL, hn]
      rw [harr]
      rcases hnd : natDigits n.natAbs with _ | ⟨d, ds⟩
      · exact absurd hnd (natDigits_ne_nil _)
      · have hd : isDigitC d = true :=
          natDigits_all_digits n.natAbs d (by rw [hnd]; simp)
        obtain ⟨e1, e2, e3, e4, e5⟩ := isDigitC_excl d hd
        have hp := parseNatAcc_natDigits n.natAbs rest hr
        rw [hnd] at hp
        simp only [List.cons_append, parseValue, e1, e2, e3, e4, e5, hd, if_false,
          if_true]
        have hpos : ((n.natAbs : Int)) = n := by omega
        simp only [← List.cons_append, hp]
        simp [hpos]
  | pbool b =>
    cases b <;> simp [encPrimL, parseValue, dropLit]
  | pnull =>
    simp [encPrimL, parseValue, dropLit]

theorem string_eta (k : String) : String.mk k.data = k := rfl

theorem headNotDigit_cons (c : Char) (l : List Char) (hc : isDigitC c = false) :
    headNotDigit (c :: l) := by
  intro d rs h
  injection h with h1 _
  subst h1
  exact hc

theorem parseFields_enc : ∀ (fs : List (String × Prim)), fs ≠ [] → fieldsWF fs →
    ∀ (rest : List Char) (fuel : Nat), fs.length ≤ fuel →
    parseFields fuel (encFieldsL fs ++ (rbrace :: rest)) = some (fs, rest) := by
  intro fs
  induction fs with
  | nil => exact fun h => absurd rfl h
  | cons kv tail ih =>
    obtain ⟨k, v⟩ := kv
    intro _ hw rest fuel hfuel
    have hwk : strWF k := (hw (k, v) (by simp)).1
    have hwv : primWF v := (hw (k, v) (by simp)).2
    cases fuel with
    | zero => simp at hfuel
    | succ f =>
      cases tail with
      | nil =>
        have hshape : encFieldsL [(k, v)] ++ (rbrace :: rest) =
            '"' :: (escList k.data ++ ('"' :: (':' :: (encPrimL v ++ (rbrace :: rest))))) := by
          simp [encFieldsL, encStrL]
        rw [hshape]
        simp only [parseFields]
        rw [parseStrChars_escList k.data _ hwk]
        simp only []
        rw [parseValue_enc v _ hwv (headNotDigit_cons _ _ (by decide))]
        simp [string_eta]
        exact fun hcontra => absurd hcontra (by decide)
      | cons kv2 tail2 =>
        have hshape : encFieldsL ((k, v) :: kv2 :: tail2) ++ (rbrace :: rest) =
            '"' :: (escList k.data ++ ('"' :: (':' :: (encPrimL v ++
              (',' :: (encFieldsL (kv2 :: tail2) ++ (rbrace :: rest))))))) := by
          simp [encFieldsL, encStrL]
        rw [hshape]
        simp only [parseFields]
        rw [parseStrChars_escList k.data _ hwk]
        simp only []
        rw [parseValue_enc v _ hwv (headNotDigit_cons _ _ (by decide))]
        simp only []
        rw [ih (by simp) (fun x hx => hw x (by simp [hx])) rest f (by simpa using hfuel)]
        simp [string_eta]

theorem encFieldsL_length (fs : List (String × Prim)) :
    fs.length ≤ (encFieldsL fs).length := by
  induction fs with
  | nil => simp [encFieldsL]
  | cons kv tail ih =>
    obtain ⟨k, v⟩ := kv
    cases tail with
    | nil =>
      have h1 : encFieldsL [(k, v)] =
          '"' :: (escList k.data ++ ('"' :: (':' :: encPrimL v))) := by
        simp [encFieldsL, encStrL]
      rw [h1]
      simp
    | cons kv2 tail2 =>
      have h1 : encFieldsL ((k, v) :: kv2 :: tail2) =
          '"' :: (escList k.data ++ ('"' :: (':' :: (encPrimL v ++
            (',' :: encFieldsL (kv2 :: tail2)))))) := by
        simp [encFieldsL, encStrL]
      rw [h1]
      simp only [List.length_cons, List.length_append] at ih ⊢
      omega

/-- C8 (over the modelled JSON fragment: flat objects with control-free
string, integer, boolean and null fields): for every value `v`,
`fromJSON(proto, getJSON(v))` succeeds and yields an object whose own
fields are exactly the field names and values of `v`, in order, and whose
capability set (prototype) is the `proto` argument, not `v`'s. -/
theorem claim8_serialize_roundtrip {π : Type} (proto : π) (v : JsObject π)
    (hw : fieldsWF v.fields) :
    fromJSON proto (getJSON v) = some { proto := proto, fields := v.fields } := by
  obtain ⟨p0, fs⟩ := v
  simp only at hw
  rcases hfs : fs with _ | ⟨⟨k, v2⟩, tail⟩
  · rfl
  · subst hfs
    obtain ⟨t, ht⟩ : ∃ t, encFieldsL ((k, v2) :: tail) = '"' :: t := by
      cases tail with
      | nil =>
        exact ⟨escList k.data ++ ('"' :: (':' :: encPrimL v2)), by simp [encFieldsL, encStrL]⟩
      | cons kv3 tail3 =>
        exact ⟨escList k.data ++ ('"' :: (':' :: (encPrimL v2 ++
          (',' :: encFieldsL (kv3 :: tail3))))), by simp [encFieldsL, encStrL]⟩
    have hpf := parseFields_enc ((k, v2) :: tail) (by simp) hw []
      (encFieldsL ((k, v2) :: tail) ++ [rbrace]).length
      (by
        have hl := encFieldsL_length ((k, v2) :: tail)
        simp only [List.length_append, List.length_cons, List.length_nil] at hl ⊢
        omega)
    rw [show encFieldsL ((k, v2) :: tail) ++ (rbrace :: []) =
      encFieldsL ((k, v2) :: tail) ++ [rbrace] from rfl] at hpf
    simp only [fromJSON, parseJSON, getJSON, encObjL]
    simp only [parseObjL]
    simp only [if_true]
    rw [ht] at hpf ⊢
    simp only [List.cons_append] at hpf ⊢
    rw [if_neg (by decide : ¬ ('"' : Char) = rbrace)]
    simp only [List.length_cons] at hpf ⊢
    rw [hpf]

/-- Concrete fields exercising string escapes and every primitive kind. -/
def sampleFields : List (String × Prim) :=
  [("width", Prim.pint 10), ("tag", Prim.pstr "a\"b\\c"),
    ("neg", Prim.pint (-42)), ("ok", Prim.pbool true), ("z", Prim.pnull)]

/-- C8 witness: the roundtrip at a concrete value, with the capability set
taken from the passed prototype rather than the original object's. -/
theorem claim8_witness :
    fromJSON "capabilities" (getJSON (JsObject.mk "orig" sampleFields)) =
      some { proto := "capabilities", fields := sampleFields } :=
  claim8_serialize_roundtrip "capabilities" (JsObject.mk "orig" sampleFields)
    (by decide)
